import Mathlib

/-!
# Verification of the Chatbot_GAIT retrieval and video-transcription core

Shallow embedding of the algorithmic parts of the repository:

* `SearchService.get_context` (src/backend/app/services/search_service.py),
  modelled over an abstract document list and a similarity vector (the
  TF-IDF / cosine computation is the external numeric part; the ranking,
  thresholding and diversity logic is embedded faithfully).
* `chunk_text` (src/backend/app/services/data_processor.py), embedded as a
  fuel-indexed loop because the Python `while` loop is not obviously
  terminating; `none` means the fuel ran out before the loop exited.
* the audio-chunk transcription pipeline of
  `VideoProcessor.extract_and_transcribe_audio` / `process_video`
  (src/backend/app/services/video_processor.py) and of the standalone
  script (src/backend/video_processor.py), modelled over per-chunk
  external-service outcomes.

Machine text is modelled as `List Char` (Python strings index by code
point); similarity scores as `ℚ`.
-/

set_option maxRecDepth 4000

namespace ChatbotGait

/-- Python `str.strip()` (whitespace at both ends removed).  We use Lean's
`Char.isWhitespace` (space, tab, CR, LF), which agrees with Python on the
characters occurring in this development. -/
def pyStrip (l : List Char) : List Char :=
  ((l.dropWhile Char.isWhitespace).reverse.dropWhile Char.isWhitespace).reverse

/-- Python slice `s[a:b]` for `0 ≤ a`, `0 ≤ b` (already clamped). -/
def pySlice (l : List Char) (a b : Nat) : List Char :=
  (l.take b).drop a

/-- First match of `pat` in a suffix list, tracking the absolute index of the
suffix head; `findScan pat l i` is the least `j ≥ i` such that `pat` is a
prefix of the part of `l` starting `j - i` in. -/
def findScan (pat : List Char) : List Char → Nat → Option Nat
  | [], _ => none
  | c :: rest, i =>
    if pat.isPrefixOf (c :: rest) then some i else findScan pat rest (i + 1)

/-- Last match of `pat` in a suffix list (greatest index), like `findScan`. -/
def rfindScan (pat : List Char) : List Char → Nat → Option Nat
  | [], _ => none
  | c :: rest, i =>
    match rfindScan pat rest (i + 1) with
    | some j => some j
    | none => if pat.isPrefixOf (c :: rest) then some i else none

/-- Python index clamping for `str.find`/`str.rfind` arguments: a negative
index wraps by the string length (floored at 0), a too-large one clamps to
the length. -/
def clampIdx (L : Nat) (i : Int) : Nat :=
  if i < 0 then ((L : Int) + i).toNat else min i.toNat L

/-- Python `text.find(pat, a, b)` (with full slice-index semantics for the
bounds), returning `none` for `-1`.  The match must lie entirely inside
`text[a:b]`, as in Python. -/
def pyFind (text pat : List Char) (a b : Int) : Option Nat :=
  let L := text.length
  let aC := clampIdx L a
  let bC := clampIdx L b
  findScan pat (pySlice text aC bC) aC

/-- Python `text.rfind(pat, a, b)` with non-negative bounds, returning `none`
for `-1`. -/
def pyRfind (text pat : List Char) (a b : Nat) : Option Nat :=
  rfindScan pat (pySlice text a b) a

/-! ## SearchService.get_context (search_service.py lines 54–107) -/

/-- One entry of `self.documents` (search_service.py lines 40–46); `path`
and `chunk_id` are carried but play no role in retrieval. -/
structure Doc where
  content : String
  source : String
  path : String
  chunk_id : Nat
  deriving Repr, DecidableEq

/-- One entry of the returned `sources` list. -/
structure SourceEntry where
  filename : String
  similarity : ℚ
  deriving Repr, DecidableEq

/-- The dict returned by `get_context`. -/
structure RetrievalResult where
  context : String
  sources : List SourceEntry
  deriving Repr, DecidableEq

/-- `pat in s` for Python strings (substring occurrence). -/
def strIn (pat s : String) : Bool :=
  (List.range (s.toList.length + 1)).any
    (fun i => pat.toList.isPrefixOf (s.toList.drop i))

/-- `"metabolism" in doc['source'].lower()` (search_service.py line 76). -/
def metabMatch (source : String) : Bool :=
  strIn "metabolism" (String.mk (source.toList.map Char.toLower))

/-- Loop state of the two accumulation passes of `get_context`:
`context`, `sources`, `seen_files` (lines 68–70). -/
structure GCState where
  context : String
  sources : List SourceEntry
  seen : List String
  deriving Repr

/-- The similarity threshold `0.1` of lines 74 and 87, as a rational in
normal form (equal to `1/10`, see `simThreshold_eq`; the normal form lets
the kernel evaluate comparisons on concrete inputs). -/
def simThreshold : ℚ := ⟨1, 10, by norm_num, by norm_num⟩

/-- `similarities[idx]` with the scores given as a list. -/
def simAt (sims : List ℚ) (i : Nat) : ℚ := sims.getD i 0

/-- `self.documents[idx]`. -/
def docAt (docs : List Doc) (i : Nat) : Doc := docs.getD i ⟨"", "", "", 0⟩

/-- Appending one retained match to the state (lines 77–82 / 90–95). -/
def addMatch (docs : List Doc) (sims : List ℚ) (i : Nat) (st : GCState) :
    GCState :=
  let d := docAt docs i
  { context := st.context ++ "\nFrom " ++ d.source ++ ":\n" ++ d.content ++ "\n"
    sources := st.sources ++ [⟨d.source, simAt sims i⟩]
    seen := st.seen ++ [d.source] }

/-- First pass (lines 73–82): keep above-threshold matches whose source name
contains "metabolism", one per source. -/
def gcLoop1 (docs : List Doc) (sims : List ℚ) : List Nat → GCState → GCState
  | [], st => st
  | i :: t, st =>
    if simThreshold < simAt sims i then
      if metabMatch (docAt docs i).source ∧ (docAt docs i).source ∉ st.seen then
        gcLoop1 docs sims t (addMatch docs sims i st)
      else gcLoop1 docs sims t st
    else gcLoop1 docs sims t st

/-- Second pass (lines 85–97): fill with other above-threshold matches, one
per source, breaking once `n_results` sources are collected. -/
def gcLoop2 (docs : List Doc) (sims : List ℚ) (nResults : Nat) :
    List Nat → GCState → GCState
  | [], st => st
  | i :: t, st =>
    if simThreshold < simAt sims i then
      if (docAt docs i).source ∉ st.seen then
        let st' := addMatch docs sims i st
        if nResults ≤ st'.sources.length then st'
        else gcLoop2 docs sims nResults t st'
      else gcLoop2 docs sims nResults t st
    else gcLoop2 docs sims nResults t st

/-- `np.argsort(similarities)`: indices sorted by ascending score.  NumPy's
default quicksort leaves the relative order of equal scores unspecified; we
model it with a stable insertion sort (a tie-order choice the settled claims
do not depend on). -/
def argsortAsc (sims : List ℚ) : List Nat :=
  List.insertionSort (fun i j => simAt sims i ≤ simAt sims j)
    (List.range sims.length)

/-- Python `a[-k:]`: the last `k` elements, the whole list when `k = 0` or
`k ≥ len(a)`. -/
def lastSlice {α : Type} (k : Nat) (l : List α) : List α :=
  if k = 0 then l else l.drop (l.length - k)

/-- `top_indices = np.argsort(similarities)[-n_results*2:][::-1]`
(line 66). -/
def topIndices (sims : List ℚ) (nResults : Nat) : List Nat :=
  (lastSlice (nResults * 2) (argsortAsc sims)).reverse

/-- `SearchService.get_context` (lines 54–107), with the documents and the
per-document cosine similarities of the query as inputs.  The
`if not self.documents or self.vectors is None` guard is the empty-documents
branch (the code sets `vectors` exactly when documents exist). -/
def get_context (docs : List Doc) (sims : List ℚ) (nResults : Nat) :
    RetrievalResult :=
  if docs.isEmpty then ⟨"", []⟩
  else
    let tops := topIndices sims nResults
    let st1 := gcLoop1 docs sims tops ⟨"", [], []⟩
    let st2 := if st1.sources.length < nResults
               then gcLoop2 docs sims nResults tops st1
               else st1
    ⟨String.mk (pyStrip st2.context.toList), st2.sources⟩

/-! ## chunk_text (data_processor.py lines 104–150) -/

/-- The natural-break computation (data_processor.py lines 120–126): for
each of `". "`, `"\n"`, `" "` in that order, `text.rfind(break_char, start,
end)`; the first that occurs moves `end` to just past its last occurrence. -/
def naturalEnd (text : List Char) (start e : Nat) : Nat :=
  match pyRfind text ['.', ' '] start e with
  | some j => j + 1
  | none =>
    match pyRfind text ['\n'] start e with
    | some j => j + 1
    | none =>
      match pyRfind text [' '] start e with
      | some j => j + 1
      | none => e

/-- One full evaluation of the chunk window end for the current `start`
(lines 116–126): clamp to the text length, then apply the natural-break
search only when the window ends strictly before the end of the text. -/
def chunkEnd (text : List Char) (chunkSize start : Nat) : Nat :=
  let e := min (start + chunkSize) text.length
  if e < text.length then naturalEnd text start e else e

/-- The overlap adjustment after advancing `start` to `end` (lines
139–144): look for the first `". "` in `[start - overlap, start)` (Python
`find`, so a negative lower bound wraps) and restart just past it. -/
def nextStart (text : List Char) (overlap start : Nat) : Nat :=
  if start < text.length then
    match pyFind text ['.', ' '] ((start : Int) - (overlap : Int)) (start : Int) with
    | some j => j + 2
    | none => start
  else start

/-- The `while` loop of `chunk_text` (lines 115–147), fuel-indexed: each
iteration consumes one unit of fuel and `none` means the fuel was exhausted
before the loop exited.  State: `start`, `chunk_count`, accumulated
chunks. -/
def chunkLoop (text : List Char) (chunkSize overlap maxChunks : Nat) :
    Nat → Nat → Nat → List (List Char) → Option (List (List Char))
  | 0, _, _, _ => none
  | fuel + 1, start, count, acc =>
    if start < text.length ∧ count < maxChunks then
      -- `chunk = text[start:end].strip()` (line 128); if it is empty nothing
      -- is emitted (`chunk_count` unchanged, the `>= max_chunks` break
      -- cannot fire since the loop guard gave `count < maxChunks`)
      if pyStrip (pySlice text start (chunkEnd text chunkSize start)) = [] then
        chunkLoop text chunkSize overlap maxChunks fuel
          (nextStart text overlap (chunkEnd text chunkSize start)) count acc
      else
        -- chunk emitted (lines 129–131); `if chunk_count >= max_chunks:
        -- break` (line 135) returns the chunks collected so far
        if maxChunks ≤ count + 1 then
          some (acc ++ [pyStrip (pySlice text start (chunkEnd text chunkSize start))])
        else
          chunkLoop text chunkSize overlap maxChunks fuel
            (nextStart text overlap (chunkEnd text chunkSize start)) (count + 1)
            (acc ++ [pyStrip (pySlice text start (chunkEnd text chunkSize start))])
    else some acc

/-- `chunk_text(text, chunk_size, overlap, max_chunks)` (lines 104–150),
fuel-indexed.  The `if not text: return []` guard is the empty-text
branch. -/
def chunk_text (fuel : Nat) (text : List Char)
    (chunkSize overlap maxChunks : Nat) : Option (List (List Char)) :=
  if text = [] then some []
  else chunkLoop text chunkSize overlap maxChunks fuel 0 0 []

/-! ## VideoProcessor (app/services/video_processor.py) -/

/-- `" ".join(parts)`. -/
def joinSp : List String → String
  | [] => ""
  | [t] => t
  | t :: rest => t ++ " " ++ joinSp rest

/-- `self.max_chunk_size = 25 * 1024 * 1024` (line 40). -/
def maxChunkSize : Nat := 25 * 1024 * 1024

/-- One audio chunk as the transcription loop sees it: its encoded size in
bytes (`os.path.getsize`) and the outcome `_transcribe_audio_chunk` would
produce for it — `some t` when the external speech-to-text call eventually
returns HTTP 200 with text `t` (possibly empty), `none` when every attempt
fails (the function returns `None` after its retries, lines 165–206).
Chunks appear in the list in ascending index order, as built by the
splitting loop (lines 139–143). -/
structure AudioChunk where
  size : Nat
  outcome : Option String
  deriving Repr, DecidableEq

/-- The text a chunk contributes to the `transcriptions` list, if any
(lines 147–156): an oversized chunk is skipped with a warning (lines
149–151), and a transcription is appended only when it is truthy, i.e.
non-empty (line 154). -/
def chunkContribution (c : AudioChunk) : Option String :=
  if maxChunkSize < c.size then none
  else match c.outcome with
    | some t => if t = "" then none else some t
    | none => none

/-- The transcription phase of `extract_and_transcribe_audio` (lines
145–159): collect contributions in chunk order and join with a space. -/
def extract_and_transcribe_audio (chunks : List AudioChunk) : String :=
  joinSp (chunks.filterMap chunkContribution)

/-- Metadata attached to a stored video transcription (lines 223–229);
`processed_date` is wall-clock and left out of the model. -/
structure VideoMeta where
  source : String
  filename : String
  type : String
  transcription_length : Nat
  deriving Repr, DecidableEq

/-- `VideoProcessor.process_video` (lines 217–234): transcribe, and return
a record only when the transcription is truthy (non-empty). -/
def process_video (filePath fileName : String) (chunks : List AudioChunk) :
    Option (String × VideoMeta) :=
  let t := extract_and_transcribe_audio chunks
  if t ≠ "" then some (t, ⟨filePath, fileName, "video", t.length⟩) else none

/-! ## Standalone script (src/backend/video_processor.py) -/

/-- `transcribe_audio_chunks` of the standalone script (lines 97–114): per
chunk, `some t` when the Whisper call returns HTTP 200 with body `t`
(appended with no emptiness or size check), `none` on a non-200 status or
exception (skipped).  The transcriptions are joined with a space. -/
def transcribe_audio_chunks (outcomes : List (Option String)) : String :=
  joinSp (outcomes.filterMap id)

/-- A unit persisted by `collection.add` in `process_video_and_store`
(line 127). -/
structure StoredUnit where
  text : String
  source : String
  filename : String
  deriving Repr, DecidableEq

/-- `process_video_and_store` (lines 117–128): transcribe the chunks and
store the joined transcription unconditionally. -/
def process_video_and_store (videoPath videoName : String)
    (outcomes : List (Option String)) : StoredUnit :=
  ⟨transcribe_audio_chunks outcomes, videoPath, videoName⟩

/-! ## Claim-side definitions

Definitions below formalise the spec's vocabulary (used to state the claims
against the embedded code); they are written from the spec's words, not
from the source. -/

/-- Spec-side: the texts of the successfully transcribed chunks, in chunk
order — a chunk counts as successfully transcribed when it was submitted
(within the size bound) and the service call succeeded, whatever text it
returned. -/
def successTexts (chunks : List AudioChunk) : List String :=
  chunks.filterMap (fun c => if c.size ≤ maxChunkSize then c.outcome else none)

/-- Spec-side: the non-empty texts among the successfully transcribed
chunks' texts, in chunk order — what the amended C8 claim says the
transcript is assembled from (an empty transcription result is omitted). -/
def nonEmptySuccessTexts (chunks : List AudioChunk) : List String :=
  (successTexts chunks).filter (fun t => t ≠ "")

/-- `pat` occurs in `text` at index `i`, entirely inside the window
`[a, b)` — the notion of "break point inside the window" used by the
chunking claims. -/
def occursAt (text pat : List Char) (a b i : Nat) : Prop :=
  a ≤ i ∧ i + pat.length ≤ b ∧ pat.isPrefixOf (text.drop i) = true

instance (text pat : List Char) (a b i : Nat) :
    Decidable (occursAt text pat a b i) := by
  unfold occursAt; infer_instance

/-- `j` is the last (largest-index) occurrence of `pat` inside the window.
The quantifier is bounded by `b`; every occurrence satisfies `i < b` for a
non-empty pattern, so nothing is lost. -/
def LastOcc (text pat : List Char) (a b j : Nat) : Prop :=
  occursAt text pat a b j ∧ ∀ i, i < b → occursAt text pat a b i → i ≤ j

/-- `pat` does not occur inside the window (same bounded form). -/
def NoOcc (text pat : List Char) (a b : Nat) : Prop :=
  ∀ i, i < b → ¬ occursAt text pat a b i

instance (text pat : List Char) (a b j : Nat) :
    Decidable (LastOcc text pat a b j) := by
  unfold LastOcc; infer_instance

instance (text pat : List Char) (a b : Nat) :
    Decidable (NoOcc text pat a b) := by
  unfold NoOcc; infer_instance

/-- Spec-side: an index `i` of the window holds any of the three break
markers `". "`, newline, space. -/
def isBreakAt (text : List Char) (a b i : Nat) : Prop :=
  occursAt text ['.', ' '] a b i ∨ occursAt text ['\n'] a b i ∨
    occursAt text [' '] a b i

instance (text : List Char) (a b i : Nat) :
    Decidable (isBreakAt text a b i) := by
  unfold isBreakAt; infer_instance

/-- The sources entry generated from candidate index `i` (lines 78–81 /
91–94): the document's source name with the candidate's similarity. -/
def mkEntry (docs : List Doc) (sims : List ℚ) (i : Nat) : SourceEntry :=
  ⟨(docAt docs i).source, simAt sims i⟩

/-- The input on which `chunk_text` fails to terminate with the default
parameters: 300 `b`s, then `". "`, a newline, and 2000 `c`s (2303
characters). -/
def divergentText : List Char :=
  List.replicate 300 'b' ++ ('.' :: ' ' :: '\n' :: List.replicate 2000 'c')

/-! ## Helper lemmas -/

theorem dropWhile_any_not (p : Char → Bool) (l : List Char)
    (h : l.dropWhile p ≠ []) :
    (l.dropWhile p).any (fun c => !p c) = true := by
  induction l with
  | nil => exact absurd rfl h
  | cons c t ih =>
    by_cases hc : p c
    · rw [List.dropWhile_cons_of_pos hc] at h ⊢; exact ih h
    · rw [List.dropWhile_cons_of_neg hc]
      simp [List.any_cons, hc]

theorem pyStrip_any_of_ne_nil (l : List Char) (h : pyStrip l ≠ []) :
    (pyStrip l).any (fun c => !c.isWhitespace) = true := by
  unfold pyStrip at h ⊢
  rw [List.any_reverse]
  apply dropWhile_any_not
  intro hnil
  exact h (by rw [hnil]; rfl)

theorem any_dropWhile_of_any (p : Char → Bool) (l : List Char)
    (h : l.any (fun c => !p c) = true) :
    (l.dropWhile p).any (fun c => !p c) = true := by
  induction l with
  | nil => simp at h
  | cons c t ih =>
    by_cases hc : p c
    · rw [List.dropWhile_cons_of_pos hc]
      apply ih
      simpa [List.any_cons, hc] using h
    · rwa [List.dropWhile_cons_of_neg hc]

theorem pyStrip_ne_nil_of_any (l : List Char)
    (h : l.any (fun c => !c.isWhitespace) = true) : pyStrip l ≠ [] := by
  unfold pyStrip
  intro hnil
  have h1 := any_dropWhile_of_any Char.isWhitespace l h
  rw [← List.any_reverse] at h1
  have h2 := any_dropWhile_of_any Char.isWhitespace
    (l.dropWhile Char.isWhitespace).reverse h1
  rw [List.reverse_eq_nil_iff] at hnil
  rw [hnil] at h2
  simp at h2

theorem joinSp_ne_empty (ts : List String) (hne : ts ≠ [])
    (h : ∀ t ∈ ts, t ≠ "") : joinSp ts ≠ "" := by
  match ts with
  | [] => exact absurd rfl hne
  | [t] => exact h t (by simp)
  | t :: a :: rest =>
    show t ++ " " ++ joinSp (a :: rest) ≠ ""
    intro he
    have hl := congrArg String.length he
    simp [String.length_append] at hl
    exact absurd hl.1.2 (by decide)

/-! ## C7: oversized audio chunks -/

/-- C7, counterexample: a duration-split chunk of 26 MiB whose transcription
would succeed with text "hello" contributes nothing to the transcript — its
content is dropped because of its encoded size, and no re-splitting takes
place, contradicting the claim that the pipeline recursively re-splits
oversized chunks so that no content is lost. -/
theorem c7_oversized_chunk_dropped :
    extract_and_transcribe_audio [⟨26 * 1024 * 1024, some "hello"⟩] = "" ∧
      ("hello" : String) ≠ "" := by
  constructor
  · rfl
  · decide

/-- C7, amended: a chunk whose encoded size exceeds the 25 MB transfer bound
is skipped entirely (never submitted, content dropped); the transcript is
exactly the transcript of the within-bound chunks, so every chunk actually
submitted for transcription is within the bound. -/
theorem c7_only_within_bound_chunks_transcribed (chunks : List AudioChunk) :
    extract_and_transcribe_audio chunks =
      extract_and_transcribe_audio
        (chunks.filter (fun c => c.size ≤ maxChunkSize)) := by
  unfold extract_and_transcribe_audio
  congr 1
  induction chunks with
  | nil => rfl
  | cons c t ih =>
    by_cases h : c.size ≤ maxChunkSize
    · rw [List.filter_cons_of_pos (by simpa using h)]
      rw [List.filterMap_cons, List.filterMap_cons, ih]
    · rw [List.filter_cons_of_neg (by simpa using h)]
      rw [List.filterMap_cons]
      have hc : chunkContribution c = none := by
        unfold chunkContribution
        rw [if_pos (lt_of_not_le h)]
      rw [hc, ih]

/-! ## C8: transcript assembly and partial failure -/

/-- C8, counterexample: a chunk whose transcription succeeds with the empty
string counts as a successfully transcribed chunk, yet the video yields no
record (`process_video` returns `None`), contradicting the claim that a
non-null transcript record is produced as long as at least one chunk
succeeded. -/
theorem c8_empty_success_yields_no_record :
    successTexts [⟨0, some ""⟩] ≠ [] ∧
      process_video "v.mp4" "v.mp4" [⟨0, some ""⟩] = none := by
  constructor
  · decide
  · rfl

theorem chunkContribution_cases (c : AudioChunk) :
    chunkContribution c =
      match (if c.size ≤ maxChunkSize then c.outcome else none) with
      | some t => if t = "" then none else some t
      | none => none := by
  unfold chunkContribution
  by_cases hs : c.size ≤ maxChunkSize
  · rw [if_neg (not_lt_of_le hs), if_pos hs]
  · rw [if_pos (lt_of_not_le hs), if_neg hs]

/-- C8, amended: for every chunk list, the final transcript is the
space-joined concatenation of exactly the successfully transcribed chunks'
non-empty texts in ascending chunk-index order — a chunk that fails after
all retries, or whose transcription comes back empty, is omitted without
reordering the others — and the video yields a non-null record iff at
least one chunk succeeded with non-empty text. -/
theorem c8_transcript_in_order_of_successes (fp fn : String)
    (chunks : List AudioChunk) :
    extract_and_transcribe_audio chunks = joinSp (nonEmptySuccessTexts chunks) ∧
      (process_video fp fn chunks ≠ none ↔ nonEmptySuccessTexts chunks ≠ []) := by
  have hmap : chunks.filterMap chunkContribution = nonEmptySuccessTexts chunks := by
    unfold nonEmptySuccessTexts successTexts
    induction chunks with
    | nil => rfl
    | cons c t ih =>
      simp only [List.filterMap_cons]
      rw [chunkContribution_cases c]
      cases hf : (if c.size ≤ maxChunkSize then c.outcome else none) with
      | none => exact ih
      | some t' =>
        by_cases ht' : t' = ""
        · simp [List.filter_cons, ht', ih]
        · simp [List.filter_cons, ht', ih]
  have hex : extract_and_transcribe_audio chunks =
      joinSp (nonEmptySuccessTexts chunks) := by
    unfold extract_and_transcribe_audio
    rw [hmap]
  refine ⟨hex, ?_⟩
  unfold process_video
  rw [hex]
  by_cases hnil : nonEmptySuccessTexts chunks = []
  · rw [hnil]
    show (if joinSp [] ≠ "" then _ else none) ≠ none ↔ _
    simp [joinSp]
  · have hne : joinSp (nonEmptySuccessTexts chunks) ≠ "" := by
      apply joinSp_ne_empty _ hnil
      intro t ht
      unfold nonEmptySuccessTexts at ht
      rw [List.mem_filter] at ht
      simpa using ht.2
    rw [if_pos hne]
    simp [hnil]

/-! ## C9: persisted units carry non-empty content -/

/-- C9, counterexample: in the standalone script
(src/backend/video_processor.py), a video all of whose chunk transcriptions
fail is still stored — `process_video_and_store` unconditionally adds the
joined transcription, here the empty string — contradicting the claim that
empty extraction results are never stored. -/
theorem c9_empty_transcript_stored :
    process_video_and_store "v.mp4" "v.mp4" [none, none] =
      ⟨"", "v.mp4", "v.mp4"⟩ := by
  rfl

/-! ## chunkLoop invariants -/

theorem chunkLoop_all_nonws (text : List Char) (cs ov mc : Nat) :
    ∀ fuel start count acc chunks,
      (∀ c ∈ acc, c.any (fun ch => !ch.isWhitespace) = true) →
      chunkLoop text cs ov mc fuel start count acc = some chunks →
      ∀ c ∈ chunks, c.any (fun ch => !ch.isWhitespace) = true := by
  intro fuel
  induction fuel with
  | zero =>
    intro start count acc chunks hacc h
    exact absurd h (by simp [chunkLoop])
  | succ f ih =>
    intro start count acc chunks hacc h
    rw [chunkLoop] at h
    by_cases hg : start < text.length ∧ count < mc
    · rw [if_pos hg] at h
      by_cases he : pyStrip (pySlice text start (chunkEnd text cs start)) = []
      · rw [if_pos he] at h
        exact ih _ _ _ _ hacc h
      · rw [if_neg he] at h
        have hacc' : ∀ c ∈ acc ++ [pyStrip (pySlice text start (chunkEnd text cs start))],
            c.any (fun ch => !ch.isWhitespace) = true := by
          intro c hc
          rcases List.mem_append.mp hc with h1 | h2
          · exact hacc c h1
          · rw [List.mem_singleton] at h2
            subst h2
            exact pyStrip_any_of_ne_nil _ he
        by_cases hb : mc ≤ count + 1
        · rw [if_pos hb] at h
          injection h with h'
          subst h'
          exact hacc'
        · rw [if_neg hb] at h
          exact ih _ _ _ _ hacc' h
    · rw [if_neg hg] at h
      injection h with h'
      subst h'
      exact hacc

theorem chunkLoop_length_le (text : List Char) (cs ov mc : Nat) :
    ∀ fuel start count acc chunks,
      acc.length = count → count ≤ mc →
      chunkLoop text cs ov mc fuel start count acc = some chunks →
      chunks.length ≤ mc := by
  intro fuel
  induction fuel with
  | zero =>
    intro start count acc chunks _ _ h
    exact absurd h (by simp [chunkLoop])
  | succ f ih =>
    intro start count acc chunks hlen hle h
    rw [chunkLoop] at h
    by_cases hg : start < text.length ∧ count < mc
    · rw [if_pos hg] at h
      by_cases he : pyStrip (pySlice text start (chunkEnd text cs start)) = []
      · rw [if_pos he] at h
        exact ih _ _ _ _ hlen hle h
      · rw [if_neg he] at h
        by_cases hb : mc ≤ count + 1
        · rw [if_pos hb] at h
          injection h with h'
          subst h'
          rw [List.length_append, hlen]
          simpa using hg.2
        · rw [if_neg hb] at h
          apply ih _ _ _ _ _ _ h
          · rw [List.length_append, hlen]
            simp
          · omega
    · rw [if_neg hg] at h
      injection h with h'
      subst h'
      omega

/-! ## C5: chunk count bound and no whitespace-only chunks -/

/-- C5: whenever the chunking loop terminates, it returns at most
`max_chunks` chunks, and every returned chunk contains a non-whitespace
character (a window that strips to nothing is skipped, never emitted). -/
theorem c5_chunk_bound_and_no_blank_chunks (fuel : Nat) (text : List Char)
    (cs ov mc : Nat) (chunks : List (List Char))
    (h : chunk_text fuel text cs ov mc = some chunks) :
    chunks.length ≤ mc ∧
      ∀ c ∈ chunks, c.any (fun ch => !ch.isWhitespace) = true := by
  unfold chunk_text at h
  by_cases ht : text = []
  · rw [if_pos ht] at h
    injection h with h'
    subst h'
    exact ⟨Nat.zero_le mc, by simp⟩
  · rw [if_neg ht] at h
    exact ⟨chunkLoop_length_le text cs ov mc fuel 0 0 [] chunks rfl
        (Nat.zero_le mc) h,
      chunkLoop_all_nonws text cs ov mc fuel 0 0 [] chunks (by simp) h⟩

/-- C5, witness: a terminating concrete run. -/
theorem c5_chunk_bound_witness :
    (["hello world".toList] : List (List Char)).length ≤ 1000 ∧
      ∀ c ∈ (["hello world".toList] : List (List Char)),
        c.any (fun ch => !ch.isWhitespace) = true :=
  c5_chunk_bound_and_no_blank_chunks 50 "hello world".toList 2000 200 1000
    ["hello world".toList] (by decide)

/-! ## C6: short inputs -/

/-- C6, counterexample: a whitespace-only input shorter than `chunk_size`
yields zero chunks, not the single trimmed chunk the claim demands (the
trimmed input would be the empty chunk, which is skipped). -/
theorem c6_short_whitespace_input_yields_nothing :
    "   ".toList.length < 2000 ∧
      chunk_text 5 "   ".toList 2000 200 1000 = some [] ∧
      ([] : List (List Char)) ≠ [pyStrip "   ".toList] := by
  refine ⟨by decide, by decide, by decide⟩

/-- C6, amended: for input shorter than `chunk_size` containing at least one
non-whitespace character (and `max_chunks ≥ 1`), `chunk_text` returns
exactly one chunk, the stripped input. -/
theorem c6_short_text_single_chunk (fuel : Nat) (text : List Char)
    (cs ov mc : Nat) (hlen : text.length < cs)
    (hany : text.any (fun c => !c.isWhitespace) = true)
    (hmc : 1 ≤ mc) (hfuel : 2 ≤ fuel) :
    chunk_text fuel text cs ov mc = some [pyStrip text] := by
  have htne : text ≠ [] := by
    intro he
    rw [he] at hany
    simp at hany
  obtain ⟨f, rfl⟩ : ∃ f, fuel = f + 2 := ⟨fuel - 2, by omega⟩
  unfold chunk_text
  rw [if_neg htne]
  have hlpos : 0 < text.length := List.length_pos.mpr htne
  have hend : chunkEnd text cs 0 = text.length := by
    unfold chunkEnd
    have hmin : min (0 + cs) text.length = text.length := by omega
    rw [hmin, if_neg (lt_irrefl _)]
  have hslice : pySlice text 0 text.length = text := by
    unfold pySlice
    rw [List.take_length, List.drop_zero]
  have hstrip_ne : pyStrip text ≠ [] := pyStrip_ne_nil_of_any text hany
  rw [chunkLoop, if_pos ⟨hlpos, hmc⟩, hend, hslice, if_neg hstrip_ne]
  by_cases hb : mc ≤ 0 + 1
  · rw [if_pos hb]
    simp
  · rw [if_neg hb]
    have hns : nextStart text ov text.length = text.length := by
      unfold nextStart
      rw [if_neg (lt_irrefl _)]
    rw [hns, chunkLoop,
      if_neg (fun hcon => absurd hcon.1 (lt_irrefl _))]
    simp

/-- C6, witness for the amended theorem: a short input with surrounding
whitespace comes back as its single trimmed chunk. -/
theorem c6_short_text_witness :
    chunk_text 2 " hi ".toList 2000 200 1000 = some [pyStrip " hi ".toList] :=
  c6_short_text_single_chunk 2 " hi ".toList 2000 200 1000 (by decide)
    (by decide) (by decide) (by decide)

/-- C9, amended: units produced by the document chunker contain a
non-whitespace character (whitespace-only chunks are dropped), and the app
video pipeline yields a record only with non-empty transcription text and
the video's own source/filename metadata; the standalone script's
unconditional store is the counterexample's violation. -/
theorem c9_persisted_units_nonempty :
    (∀ fuel text cs ov mc chunks, chunk_text fuel text cs ov mc = some chunks →
      ∀ c ∈ chunks, c.any (fun ch => !ch.isWhitespace) = true) ∧
    (∀ fp fn chunks t m, process_video fp fn chunks = some (t, m) →
      t ≠ "" ∧ m.source = fp ∧ m.filename = fn) := by
  constructor
  · intro fuel text cs ov mc chunks h
    unfold chunk_text at h
    by_cases ht : text = []
    · rw [if_pos ht] at h
      injection h with h'
      subst h'
      simp
    · rw [if_neg ht] at h
      exact chunkLoop_all_nonws text cs ov mc fuel 0 0 [] chunks (by simp) h
  · intro fp fn chunks t m h
    unfold process_video at h
    by_cases hne : extract_and_transcribe_audio chunks ≠ ""
    · rw [if_pos hne] at h
      injection h with h'
      have ht : t = extract_and_transcribe_audio chunks :=
        (congrArg Prod.fst h').symm
      have hm : m = ⟨fp, fn, "video", (extract_and_transcribe_audio chunks).length⟩ :=
        (congrArg Prod.snd h').symm
      subst ht
      subst hm
      exact ⟨hne, rfl, rfl⟩
    · rw [if_neg hne] at h
      exact absurd h (by simp)

/-- C9, witness: a concrete chunked document and a concrete processed video
satisfying the invariant. -/
theorem c9_persisted_units_witness :
    (∀ c ∈ [['h', 'i']], c.any (fun ch => !ch.isWhitespace) = true) ∧
      (("hi" : String) ≠ "" ∧
        (⟨"a", "b", "video", 2⟩ : VideoMeta).source = "a" ∧
        (⟨"a", "b", "video", 2⟩ : VideoMeta).filename = "b") :=
  ⟨fun c hc => c9_persisted_units_nonempty.1 5 "hi".toList 2000 200 1000
      [['h', 'i']] (by decide) c hc,
    c9_persisted_units_nonempty.2 "a" "b" [⟨1, some "hi"⟩] "hi"
      ⟨"a", "b", "video", 2⟩ (by decide)⟩

/-! ## get_context invariants -/

/-- The modelled threshold is the spec's similarity floor `0.1`. -/
theorem simThreshold_eq : simThreshold = 1 / 10 := by
  rw [simThreshold, Rat.mk'_eq_divInt, Rat.divInt_eq_div]
  norm_num

theorem addMatch_nodup (docs : List Doc) (sims : List ℚ) (i : Nat)
    (st : GCState) (hni : (docAt docs i).source ∉ st.seen)
    (h1 : (st.sources.map SourceEntry.filename).Nodup)
    (h2 : ∀ e ∈ st.sources, e.filename ∈ st.seen) :
    ((addMatch docs sims i st).sources.map SourceEntry.filename).Nodup ∧
      ∀ e ∈ (addMatch docs sims i st).sources,
        e.filename ∈ (addMatch docs sims i st).seen := by
  unfold addMatch
  constructor
  · rw [List.map_append]
    rw [List.nodup_append]
    refine ⟨h1, by simp, ?_⟩
    intro x hx hx'
    simp at hx'
    subst hx'
    rw [List.mem_map] at hx
    obtain ⟨e, he, hef⟩ := hx
    exact hni (hef ▸ h2 e he)
  · intro e he
    rcases List.mem_append.mp he with hold | hnew
    · exact List.mem_append.mpr (Or.inl (h2 e hold))
    · rw [List.mem_singleton] at hnew
      subst hnew
      exact List.mem_append.mpr (Or.inr (by simp))

theorem gcLoop1_nodup (docs : List Doc) (sims : List ℚ) :
    ∀ l st, (st.sources.map SourceEntry.filename).Nodup →
      (∀ e ∈ st.sources, e.filename ∈ st.seen) →
      ((gcLoop1 docs sims l st).sources.map SourceEntry.filename).Nodup ∧
        ∀ e ∈ (gcLoop1 docs sims l st).sources,
          e.filename ∈ (gcLoop1 docs sims l st).seen := by
  intro l
  induction l with
  | nil => exact fun st h1 h2 => ⟨h1, h2⟩
  | cons i t ih =>
    intro st h1 h2
    rw [gcLoop1]
    by_cases hq : simThreshold < simAt sims i
    · rw [if_pos hq]
      by_cases hm : metabMatch (docAt docs i).source ∧ (docAt docs i).source ∉ st.seen
      · rw [if_pos hm]
        have := addMatch_nodup docs sims i st hm.2 h1 h2
        exact ih _ this.1 this.2
      · rw [if_neg hm]
        exact ih _ h1 h2
    · rw [if_neg hq]
      exact ih _ h1 h2

theorem gcLoop2_nodup (docs : List Doc) (sims : List ℚ) (n : Nat) :
    ∀ l st, (st.sources.map SourceEntry.filename).Nodup →
      (∀ e ∈ st.sources, e.filename ∈ st.seen) →
      ((gcLoop2 docs sims n l st).sources.map SourceEntry.filename).Nodup ∧
        ∀ e ∈ (gcLoop2 docs sims n l st).sources,
          e.filename ∈ (gcLoop2 docs sims n l st).seen := by
  intro l
  induction l with
  | nil => exact fun st h1 h2 => ⟨h1, h2⟩
  | cons i t ih =>
    intro st h1 h2
    rw [gcLoop2]
    by_cases hq : simThreshold < simAt sims i
    · rw [if_pos hq]
      by_cases hm : (docAt docs i).source ∉ st.seen
      · rw [if_pos hm]
        have hadd := addMatch_nodup docs sims i st hm h1 h2
        by_cases hb : n ≤ (addMatch docs sims i st).sources.length
        · rw [if_pos hb]
          exact hadd
        · rw [if_neg hb]
          exact ih _ hadd.1 hadd.2
      · rw [if_neg hm]
        exact ih _ h1 h2
    · rw [if_neg hq]
      exact ih _ h1 h2

/-! ## C1: source diversity (no duplicate filenames) -/

/-- C1: for every document list, similarity vector and `n_results`, the
sources list returned by `get_context` never contains two entries with the
same filename. -/
theorem c1_sources_filenames_nodup (docs : List Doc) (sims : List ℚ)
    (n : Nat) :
    (((get_context docs sims n).sources).map SourceEntry.filename).Nodup := by
  unfold get_context
  by_cases hd : docs.isEmpty
  · rw [if_pos hd]
    simp
  · rw [if_neg hd]
    have h1 := gcLoop1_nodup docs sims (topIndices sims n) ⟨"", [], []⟩
      (by simp) (by simp)
    by_cases hn : (gcLoop1 docs sims (topIndices sims n) ⟨"", [], []⟩).sources.length < n
    · simp only [if_pos hn]
      exact (gcLoop2_nodup docs sims n (topIndices sims n) _ h1.1 h1.2).1
    · simp only [if_neg hn]
      exact h1.1

/-! ## C3: below-threshold queries -/

theorem topIndices_lt (sims : List ℚ) (n : Nat) :
    ∀ i ∈ topIndices sims n, i < sims.length := by
  intro i hi
  unfold topIndices at hi
  rw [List.mem_reverse] at hi
  unfold lastSlice at hi
  have hi' : i ∈ argsortAsc sims := by
    by_cases hk : n * 2 = 0
    · rwa [if_pos hk] at hi
    · rw [if_neg hk] at hi
      exact List.mem_of_mem_drop hi
  unfold argsortAsc at hi'
  rw [(List.perm_insertionSort _ _).mem_iff] at hi'
  exact List.mem_range.mp hi'

theorem gcLoop1_skip_all (docs : List Doc) (sims : List ℚ) :
    ∀ l st, (∀ i ∈ l, ¬(simThreshold < simAt sims i)) →
      gcLoop1 docs sims l st = st := by
  intro l
  induction l with
  | nil => intro st _; rfl
  | cons i t ih =>
    intro st h
    rw [gcLoop1, if_neg (h i (by simp))]
    exact ih st (fun j hj => h j (by simp [hj]))

theorem gcLoop2_skip_all (docs : List Doc) (sims : List ℚ) (n : Nat) :
    ∀ l st, (∀ i ∈ l, ¬(simThreshold < simAt sims i)) →
      gcLoop2 docs sims n l st = st := by
  intro l
  induction l with
  | nil => intro st _; rfl
  | cons i t ih =>
    intro st h
    rw [gcLoop2, if_neg (h i (by simp))]
    exact ih st (fun j hj => h j (by simp [hj]))

/-- C3, counterexample: a loaded index queried below the similarity floor
(one chunk scoring 1/20) returns a result identical to the not-loaded
("did not run") result — the context is the plain empty string, not a
distinguishable "no relevant content" sentinel. -/
theorem c3_no_sentinel_on_empty_result :
    get_context [⟨"x", "a.pdf", "p", 0⟩]
        [⟨1, 20, by norm_num, by norm_num⟩] 5 = get_context [] [] 5 ∧
      (get_context [] [] 5).context = "" := by
  refine ⟨by decide, by decide⟩

/-- C3, amended: when every stored chunk's similarity is at or below the
0.1 floor (`simThreshold`), `get_context` returns the empty context string
and an empty sources list (the same value the not-loaded branch returns),
and — being a total function in this model — raises nothing. -/
theorem c3_below_threshold_empty_result (docs : List Doc) (sims : List ℚ)
    (n : Nat) (h : ∀ s ∈ sims, s ≤ simThreshold) :
    get_context docs sims n = ⟨"", []⟩ := by
  unfold get_context
  by_cases hd : docs.isEmpty
  · rw [if_pos hd]
  · rw [if_neg hd]
    have hskip : ∀ i ∈ topIndices sims n, ¬(simThreshold < simAt sims i) := by
      intro i hi
      have hlt := topIndices_lt sims n i hi
      have hmem : simAt sims i ∈ sims := by
        unfold simAt
        rw [List.getD_eq_getElem sims 0 hlt]
        exact List.getElem_mem hlt
      exact not_lt_of_le (h _ hmem)
    simp only [gcLoop1_skip_all docs sims (topIndices sims n) ⟨"", [], []⟩
      hskip]
    by_cases hn : ([] : List SourceEntry).length < n
    · simp only [if_pos hn]
      simp only [gcLoop2_skip_all docs sims n (topIndices sims n) ⟨"", [], []⟩
        hskip]
      decide
    · simp only [if_neg hn]
      decide

/-- C3, witness for the amended theorem: one stored chunk scoring 1/20
yields the empty result. -/
theorem c3_below_threshold_witness :
    get_context [⟨"y", "b.pdf", "p", 0⟩]
        [⟨1, 20, by norm_num, by norm_num⟩] 5 = ⟨"", []⟩ :=
  c3_below_threshold_empty_result [⟨"y", "b.pdf", "p", 0⟩]
    [⟨1, 20, by norm_num, by norm_num⟩] 5 (by decide)

/-! ## rfind characterization and C4 -/

theorem rfindScan_none_spec (pat : List Char) (hpat : pat ≠ []) :
    ∀ (l : List Char) (i0 i : Nat), rfindScan pat l i0 = none → i0 ≤ i →
      pat.isPrefixOf (l.drop (i - i0)) = true → False := by
  intro l
  induction l with
  | nil =>
    intro i0 i _ _ hp
    rw [List.drop_nil] at hp
    cases pat with
    | nil => exact hpat rfl
    | cons p ps => simp [List.isPrefixOf] at hp
  | cons c rest ih =>
    intro i0 i h hle hp
    rw [rfindScan] at h
    cases hrec : rfindScan pat rest (i0 + 1) with
    | some j => rw [hrec] at h; exact absurd h (by simp)
    | none =>
      rw [hrec] at h
      by_cases hpre : pat.isPrefixOf (c :: rest) = true
      · rw [if_pos hpre] at h; exact absurd h (by simp)
      · rcases Nat.eq_or_lt_of_le hle with heq | hlt
        · subst heq
          rw [Nat.sub_self] at hp
          exact hpre hp
        · have hii : i - i0 = (i - (i0 + 1)) + 1 := by omega
          rw [hii] at hp
          exact ih (i0 + 1) i hrec (by omega) (by simpa using hp)

theorem rfindScan_some_spec (pat : List Char) (hpat : pat ≠ []) :
    ∀ (l : List Char) (i0 j : Nat), rfindScan pat l i0 = some j →
      i0 ≤ j ∧ pat.isPrefixOf (l.drop (j - i0)) = true ∧
        ∀ i, i0 ≤ i → pat.isPrefixOf (l.drop (i - i0)) = true → i ≤ j := by
  intro l
  induction l with
  | nil => intro i0 j h; exact absurd h (by simp [rfindScan])
  | cons c rest ih =>
    intro i0 j h
    rw [rfindScan] at h
    cases hrec : rfindScan pat rest (i0 + 1) with
    | some j' =>
      rw [hrec] at h
      have hj : j = j' := by
        injection h with h'
        exact h'.symm
      subst hj
      obtain ⟨h1, h2, h3⟩ := ih (i0 + 1) j hrec
      refine ⟨by omega, ?_, ?_⟩
      · have hjj : j - i0 = (j - (i0 + 1)) + 1 := by omega
        rw [hjj]
        simpa using h2
      · intro i hi hp
        rcases Nat.eq_or_lt_of_le hi with heq | hlt
        · omega
        · have hii : i - i0 = (i - (i0 + 1)) + 1 := by omega
          rw [hii] at hp
          exact h3 i (by omega) (by simpa using hp)
    | none =>
      rw [hrec] at h
      by_cases hpre : pat.isPrefixOf (c :: rest) = true
      · rw [if_pos hpre] at h
        injection h with h'
        subst h'
        refine ⟨le_refl _, by simpa [Nat.sub_self] using hpre, ?_⟩
        intro i hi hp
        rcases Nat.eq_or_lt_of_le hi with heq | hlt
        · omega
        · exfalso
          have hii : i - i0 = (i - (i0 + 1)) + 1 := by omega
          rw [hii] at hp
          exact rfindScan_none_spec pat hpat rest (i0 + 1) i hrec (by omega)
            (by simpa using hp)
      · rw [if_neg hpre] at h
        exact absurd h (by simp)

theorem occursAt_iff_slice (text pat : List Char) (hpat : pat ≠ [])
    (a b i : Nat) (ha : a ≤ i) :
    occursAt text pat a b i ↔
      pat.isPrefixOf ((pySlice text a b).drop (i - a)) = true := by
  have hkey : (pySlice text a b).drop (i - a) = (text.drop i).take (b - i) := by
    unfold pySlice
    rw [List.drop_drop]
    have haa : a + (i - a) = i := by omega
    rw [haa, List.drop_take]
  rw [hkey]
  unfold occursAt
  have hlp : 0 < pat.length := List.length_pos.mpr hpat
  constructor
  · rintro ⟨_, h2, h3⟩
    rw [List.isPrefixOf_iff_prefix] at h3
    rw [List.isPrefixOf_iff_prefix, List.prefix_take_iff]
    exact ⟨h3, by omega⟩
  · intro h3
    rw [List.isPrefixOf_iff_prefix, List.prefix_take_iff] at h3
    obtain ⟨h31, h32⟩ := h3
    refine ⟨ha, by omega, ?_⟩
    rw [List.isPrefixOf_iff_prefix]
    exact h31

theorem occursAt_lt (text pat : List Char) (a b i : Nat) (hpat : pat ≠ [])
    (h : occursAt text pat a b i) : i < b := by
  have hlp : 0 < pat.length := List.length_pos.mpr hpat
  have h2 := h.2.1
  omega

theorem pyRfind_some_spec (text pat : List Char) (a b j : Nat)
    (hpat : pat ≠ []) (h : pyRfind text pat a b = some j) :
    occursAt text pat a b j ∧ ∀ i, occursAt text pat a b i → i ≤ j := by
  unfold pyRfind at h
  obtain ⟨h1, h2, h3⟩ := rfindScan_some_spec pat hpat _ a j h
  refine ⟨(occursAt_iff_slice text pat hpat a b j h1).mpr h2, fun i hi => ?_⟩
  exact h3 i hi.1 ((occursAt_iff_slice text pat hpat a b i hi.1).mp hi)

theorem pyRfind_none_spec (text pat : List Char) (a b : Nat)
    (hpat : pat ≠ []) (h : pyRfind text pat a b = none) :
    ∀ i, ¬ occursAt text pat a b i := by
  unfold pyRfind at h
  intro i hi
  exact rfindScan_none_spec pat hpat _ a i h hi.1
    ((occursAt_iff_slice text pat hpat a b i hi.1).mp hi)

theorem pyRfind_eq_of_lastOcc (text pat : List Char) (a b j : Nat)
    (hpat : pat ≠ []) (h : LastOcc text pat a b j) :
    pyRfind text pat a b = some j := by
  cases hr : pyRfind text pat a b with
  | none => exact absurd h.1 (pyRfind_none_spec text pat a b hpat hr j)
  | some j' =>
    obtain ⟨hocc', hmax'⟩ := pyRfind_some_spec text pat a b j' hpat hr
    have h1 : j' ≤ j := h.2 j' (occursAt_lt text pat a b j' hpat hocc') hocc'
    have h2 : j ≤ j' := hmax' j h.1
    rw [show j' = j from le_antisymm h1 h2]

theorem pyRfind_none_of_noOcc (text pat : List Char) (a b : Nat)
    (hpat : pat ≠ []) (h : NoOcc text pat a b) :
    pyRfind text pat a b = none := by
  cases hr : pyRfind text pat a b with
  | none => rfl
  | some j =>
    obtain ⟨hocc, _⟩ := pyRfind_some_spec text pat a b j hpat hr
    exact absurd hocc (h j (occursAt_lt text pat a b j hpat hocc))

/-- C4, counterexample: in the window `[0, 6)` of `"a. b cd"` the largest
break index is 4 (a space), yet the code cuts at 2 (just past the last
`". "`, which has priority over the nearer space), and accordingly the
first chunk produced with `chunk_size = 6` is `"a."`, not `"a. b"`. -/
theorem c4_cut_not_nearest_break :
    isBreakAt "a. b cd".toList 0 6 4 ∧
      (∀ i, i < 6 → isBreakAt "a. b cd".toList 0 6 i → i ≤ 4) ∧
      naturalEnd "a. b cd".toList 0 6 = 2 ∧
      chunk_text 5 "a. b cd".toList 6 0 1000 =
        some [['a', '.'], ['b', ' ', 'c', 'd']] := by
  refine ⟨by decide, by decide, by decide, by decide⟩

/-- C4, amended: the break search is priority-ordered, not
nearest-to-window-end: the cut is one past the last occurrence of `". "`
inside the window if there is one, else one past the last newline, else
one past the last space, else the window end. -/
theorem c4_break_priority (text : List Char) (a b : Nat) :
    (∀ j, LastOcc text ['.', ' '] a b j → naturalEnd text a b = j + 1) ∧
      (NoOcc text ['.', ' '] a b →
        ∀ j, LastOcc text ['\n'] a b j → naturalEnd text a b = j + 1) ∧
      (NoOcc text ['.', ' '] a b → NoOcc text ['\n'] a b →
        ∀ j, LastOcc text [' '] a b j → naturalEnd text a b = j + 1) ∧
      (NoOcc text ['.', ' '] a b → NoOcc text ['\n'] a b →
        NoOcc text [' '] a b → naturalEnd text a b = b) := by
  refine ⟨?_, ?_, ?_, ?_⟩
  · intro j hj
    unfold naturalEnd
    rw [pyRfind_eq_of_lastOcc text ['.', ' '] a b j (by simp) hj]
  · intro hnds j hj
    unfold naturalEnd
    rw [pyRfind_none_of_noOcc text ['.', ' '] a b (by simp) hnds,
      pyRfind_eq_of_lastOcc text ['\n'] a b j (by simp) hj]
  · intro hnds hnnl j hj
    unfold naturalEnd
    rw [pyRfind_none_of_noOcc text ['.', ' '] a b (by simp) hnds,
      pyRfind_none_of_noOcc text ['\n'] a b (by simp) hnnl,
      pyRfind_eq_of_lastOcc text [' '] a b j (by simp) hj]
  · intro hnds hnnl hnsp
    unfold naturalEnd
    rw [pyRfind_none_of_noOcc text ['.', ' '] a b (by simp) hnds,
      pyRfind_none_of_noOcc text ['\n'] a b (by simp) hnnl,
      pyRfind_none_of_noOcc text [' '] a b (by simp) hnsp]

/-- C4, witness for the amended theorem: in `"xx. yy"` restricted to the
window `[0, 4)`, the last `". "` occurrence is at index 2 and the cut lands
at 3. -/
theorem c4_break_priority_witness : naturalEnd "xx. yy".toList 0 4 = 3 :=
  (c4_break_priority "xx. yy".toList 0 4).1 2 (by decide)

/-! ## C10: non-termination of chunk_text -/

theorem rfindScan_replicate_none (p : Char) (ps : List Char) (c : Char)
    (hpc : (p == c) = false) :
    ∀ n i, rfindScan (p :: ps) (List.replicate n c) i = none := by
  intro n
  induction n with
  | zero => intro i; rfl
  | succ m ih =>
    intro i
    rw [List.replicate_succ, rfindScan, ih (i + 1)]
    simp [List.isPrefixOf, hpc]

theorem rfindScan_replicate_append (p : Char) (ps : List Char) (c : Char)
    (l : List Char) (hpc : (p == c) = false) :
    ∀ n i, rfindScan (p :: ps) (List.replicate n c ++ l) i =
      rfindScan (p :: ps) l (i + n) := by
  intro n
  induction n with
  | zero => intro i; rfl
  | succ m ih =>
    intro i
    rw [List.replicate_succ, List.cons_append, rfindScan, ih (i + 1)]
    have harith : i + 1 + m = i + (m + 1) := by omega
    rw [harith]
    cases h : rfindScan (p :: ps) l (i + (m + 1)) with
    | some j => rfl
    | none => simp [List.isPrefixOf, hpc]

theorem findScan_replicate_append (p : Char) (ps : List Char) (c : Char)
    (l : List Char) (hpc : (p == c) = false) :
    ∀ n i, findScan (p :: ps) (List.replicate n c ++ l) i =
      findScan (p :: ps) l (i + n) := by
  intro n
  induction n with
  | zero => intro i; rfl
  | succ m ih =>
    intro i
    rw [List.replicate_succ, List.cons_append, findScan,
      if_neg (by simp [List.isPrefixOf, hpc]), ih (i + 1)]
    congr 1
    omega

theorem rfs_ds_tail1 (n i : Nat) :
    rfindScan ['.', ' '] ('\n' :: List.replicate n 'c') i = none := by
  rw [rfindScan, rfindScan_replicate_none '.' [' '] 'c' (by decide) n (i + 1)]
  simp [List.isPrefixOf]

theorem rfs_nl_tail1 (n i : Nat) :
    rfindScan ['\n'] ('\n' :: List.replicate n 'c') i = some i := by
  rw [rfindScan, rfindScan_replicate_none '\n' [] 'c' (by decide) n (i + 1)]
  simp [List.isPrefixOf]

theorem rfs_ds_tail2 (n i : Nat) :
    rfindScan ['.', ' '] (' ' :: '\n' :: List.replicate n 'c') i = none := by
  rw [rfindScan, rfs_ds_tail1 n (i + 1)]
  simp [List.isPrefixOf]

theorem rfs_nl_tail2 (n i : Nat) :
    rfindScan ['\n'] (' ' :: '\n' :: List.replicate n 'c') i = some (i + 1) := by
  rw [rfindScan, rfs_nl_tail1 n (i + 1)]

theorem rfs_ds_tail3 (n i : Nat) :
    rfindScan ['.', ' '] ('.' :: ' ' :: '\n' :: List.replicate n 'c') i =
      some i := by
  rw [rfindScan, rfs_ds_tail2 n (i + 1)]
  simp [List.isPrefixOf]

-- take/drop helpers
theorem take_repl_append (n : Nat) (c : Char) (l : List Char) (m : Nat)
    (h : n ≤ m) :
    (List.replicate n c ++ l).take m = List.replicate n c ++ l.take (m - n) := by
  rw [List.take_append_eq_append_take,
    List.take_of_length_le (by simpa using h)]
  congr 2
  simp

theorem drop_repl_append (n : Nat) (c : Char) (l : List Char) (m : Nat)
    (h : n ≤ m) :
    (List.replicate n c ++ l).drop m = l.drop (m - n) := by
  rw [List.drop_append_eq_append_drop,
    List.drop_eq_nil_of_le (by simpa using h)]
  simp

theorem drop_repl_append_lt (n : Nat) (c : Char) (l : List Char) (m : Nat)
    (h : m ≤ n) :
    (List.replicate n c ++ l).drop m = List.replicate (n - m) c ++ l := by
  rw [List.drop_append_eq_append_drop, List.drop_replicate,
    List.length_replicate, show m - n = 0 from by omega, List.drop_zero]

theorem take_repl (n m : Nat) (c : Char) (h : m ≤ n) :
    (List.replicate n c).take m = List.replicate m c := by
  rw [List.take_replicate]
  congr 1
  omega

theorem pySlice_eq (l : List Char) (a b : Nat) :
    pySlice l a b = (l.drop a).take (b - a) := by
  unfold pySlice
  rw [List.drop_take]

theorem dvg_len : divergentText.length = 2303 := by
  rw [divergentText, List.length_append, List.length_replicate,
    List.length_cons, List.length_cons, List.length_cons,
    List.length_replicate]

theorem take_cons1 (x : Char) (l : List Char) (n : Nat) :
    (x :: l).take (n + 1) = x :: l.take n := rfl

theorem take_cons2 (x y : Char) (l : List Char) (n : Nat) :
    (x :: y :: l).take (n + 2) = x :: y :: l.take n := rfl

theorem take_cons3 (x y z : Char) (l : List Char) (n : Nat) :
    (x :: y :: z :: l).take (n + 3) = x :: y :: z :: l.take n := rfl

theorem dvg_slice_w0 : pySlice divergentText 0 2000 =
    List.replicate 300 'b' ++ ('.' :: ' ' :: '\n' :: List.replicate 1697 'c') := by
  rw [pySlice_eq, Nat.sub_zero, List.drop_zero, divergentText,
    take_repl_append _ _ _ _ (by norm_num),
    show (2000 : Nat) - 300 = 1697 + 3 from by norm_num,
    take_cons3, take_repl 2000 1697 'c' (by norm_num)]

theorem dvg_slice_c0 : pySlice divergentText 0 301 =
    List.replicate 300 'b' ++ ['.'] := by
  rw [pySlice_eq, Nat.sub_zero, List.drop_zero, divergentText,
    take_repl_append _ _ _ _ (by norm_num),
    show (301 : Nat) - 300 = 0 + 1 from by norm_num,
    take_cons1, List.take_zero]

theorem dvg_drop_301 : divergentText.drop 301 =
    ' ' :: '\n' :: List.replicate 2000 'c' := by
  rw [divergentText, drop_repl_append _ _ _ _ (by norm_num),
    show (301 : Nat) - 300 = 1 from by norm_num]
  rfl

theorem dvg_slice_w1 : pySlice divergentText 301 2301 =
    ' ' :: '\n' :: List.replicate 1998 'c' := by
  rw [pySlice_eq, dvg_drop_301,
    show (2301 : Nat) - 301 = 1998 + 2 from by norm_num,
    take_cons2, take_repl 2000 1998 'c' (by norm_num)]

theorem dvg_slice_c1 : pySlice divergentText 301 303 = [' ', '\n'] := by
  rw [pySlice_eq, dvg_drop_301,
    show (303 : Nat) - 301 = 0 + 2 from by norm_num,
    take_cons2, List.take_zero]

theorem dvg_drop_302 : divergentText.drop 302 =
    '\n' :: List.replicate 2000 'c' := by
  rw [divergentText, drop_repl_append _ _ _ _ (by norm_num),
    show (302 : Nat) - 300 = 2 from by norm_num]
  rfl

theorem dvg_slice_w2 : pySlice divergentText 302 2302 =
    '\n' :: List.replicate 1999 'c' := by
  rw [pySlice_eq, dvg_drop_302,
    show (2302 : Nat) - 302 = 1999 + 1 from by norm_num,
    take_cons1, take_repl 2000 1999 'c' (by norm_num)]

theorem dvg_slice_c2 : pySlice divergentText 302 303 = ['\n'] := by
  rw [pySlice_eq, dvg_drop_302,
    show (303 : Nat) - 302 = 0 + 1 from by norm_num,
    take_cons1, List.take_zero]

theorem dvg_drop_101 : divergentText.drop 101 =
    List.replicate 199 'b' ++ ('.' :: ' ' :: '\n' :: List.replicate 2000 'c') := by
  rw [divergentText, drop_repl_append_lt _ _ _ _ (by norm_num),
    show (300 : Nat) - 101 = 199 from by norm_num]

theorem dvg_slice_f0 : pySlice divergentText 101 301 =
    List.replicate 199 'b' ++ ['.'] := by
  rw [pySlice_eq, dvg_drop_101,
    show (301 : Nat) - 101 = 200 from by norm_num,
    take_repl_append _ _ _ _ (by norm_num),
    show (200 : Nat) - 199 = 0 + 1 from by norm_num,
    take_cons1, List.take_zero]

theorem dvg_drop_103 : divergentText.drop 103 =
    List.replicate 197 'b' ++ ('.' :: ' ' :: '\n' :: List.replicate 2000 'c') := by
  rw [divergentText, drop_repl_append_lt _ _ _ _ (by norm_num),
    show (300 : Nat) - 103 = 197 from by norm_num]

theorem dvg_slice_f1 : pySlice divergentText 103 303 =
    List.replicate 197 'b' ++ ['.', ' ', '\n'] := by
  rw [pySlice_eq, dvg_drop_103,
    show (303 : Nat) - 103 = 200 from by norm_num,
    take_repl_append _ _ _ _ (by norm_num),
    show (200 : Nat) - 197 = 0 + 3 from by norm_num,
    take_cons3, List.take_zero]

theorem fs_dot_none (i : Nat) : findScan ['.', ' '] ['.'] i = none := by
  rw [findScan, if_neg (by decide)]
  rfl

theorem fs_dsnl_some (i : Nat) :
    findScan ['.', ' '] ['.', ' ', '\n'] i = some i := by
  rw [findScan, if_pos (by decide)]

theorem dvg_end0 : chunkEnd divergentText 2000 0 = 301 := by
  simp only [chunkEnd]
  rw [dvg_len, show min (0 + 2000) 2303 = 2000 from by norm_num,
    if_pos (by norm_num : (2000 : Nat) < 2303)]
  unfold naturalEnd
  have hds : pyRfind divergentText ['.', ' '] 0 2000 = some 300 := by
    unfold pyRfind
    rw [dvg_slice_w0,
      rfindScan_replicate_append '.' [' '] 'b' _ (by decide) 300 0,
      rfs_ds_tail3 1697 (0 + 300)]
  rw [hds]

theorem dvg_ns0 : nextStart divergentText 200 301 = 301 := by
  simp only [nextStart]
  rw [dvg_len, if_pos (by norm_num : (301 : Nat) < 2303)]
  have hf : pyFind divergentText ['.', ' ']
      (((301 : Nat) : Int) - ((200 : Nat) : Int)) ((301 : Nat) : Int) = none := by
    simp only [pyFind]
    rw [dvg_len]
    rw [show clampIdx 2303 (((301 : Nat) : Int) - ((200 : Nat) : Int)) = 101 from by
        unfold clampIdx; decide,
      show clampIdx 2303 ((301 : Nat) : Int) = 301 from by unfold clampIdx; decide,
      dvg_slice_f0,
      findScan_replicate_append '.' [' '] 'b' _ (by decide) 199 101,
      fs_dot_none (101 + 199)]
  rw [hf]

theorem dvg_end1 : chunkEnd divergentText 2000 301 = 303 := by
  simp only [chunkEnd]
  rw [dvg_len, show min (301 + 2000) 2303 = 2301 from by norm_num,
    if_pos (by norm_num : (2301 : Nat) < 2303)]
  unfold naturalEnd
  have hds : pyRfind divergentText ['.', ' '] 301 2301 = none := by
    unfold pyRfind
    rw [dvg_slice_w1, rfs_ds_tail2 1998 301]
  have hnl : pyRfind divergentText ['\n'] 301 2301 = some 302 := by
    unfold pyRfind
    rw [dvg_slice_w1, rfs_nl_tail2 1998 301]
  rw [hds, hnl]

theorem dvg_ns1 : nextStart divergentText 200 303 = 302 := by
  simp only [nextStart]
  rw [dvg_len, if_pos (by norm_num : (303 : Nat) < 2303)]
  have hf : pyFind divergentText ['.', ' ']
      (((303 : Nat) : Int) - ((200 : Nat) : Int)) ((303 : Nat) : Int) =
        some 300 := by
    simp only [pyFind]
    rw [dvg_len]
    rw [show clampIdx 2303 (((303 : Nat) : Int) - ((200 : Nat) : Int)) = 103 from by
        unfold clampIdx; decide,
      show clampIdx 2303 ((303 : Nat) : Int) = 303 from by unfold clampIdx; decide,
      dvg_slice_f1,
      findScan_replicate_append '.' [' '] 'b' _ (by decide) 197 103,
      fs_dsnl_some (103 + 197)]
  rw [hf]

theorem dvg_end2 : chunkEnd divergentText 2000 302 = 303 := by
  simp only [chunkEnd]
  rw [dvg_len, show min (302 + 2000) 2303 = 2302 from by norm_num,
    if_pos (by norm_num : (2302 : Nat) < 2303)]
  unfold naturalEnd
  have hds : pyRfind divergentText ['.', ' '] 302 2302 = none := by
    unfold pyRfind
    rw [dvg_slice_w2, rfs_ds_tail1 1999 302]
  have hnl : pyRfind divergentText ['\n'] 302 2302 = some 302 := by
    unfold pyRfind
    rw [dvg_slice_w2, rfs_nl_tail1 1999 302]
  rw [hds, hnl]

theorem dvg_strip0 : pyStrip (pySlice divergentText 0 301) ≠ [] := by
  rw [dvg_slice_c0]
  apply pyStrip_ne_nil_of_any
  rw [List.any_append, Bool.or_eq_true]
  exact Or.inr (by decide)

theorem dvg_strip1 : pyStrip (pySlice divergentText 301 303) = [] := by
  rw [dvg_slice_c1]
  decide

theorem dvg_strip2 : pyStrip (pySlice divergentText 302 303) = [] := by
  rw [dvg_slice_c2]
  decide

theorem chunkLoop_stuck : ∀ fuel count acc, count < 1000 →
    chunkLoop divergentText 2000 200 1000 fuel 302 count acc = none := by
  intro fuel
  induction fuel with
  | zero => intro count acc _; rfl
  | succ f ih =>
    intro count acc hc
    rw [chunkLoop, dvg_len,
      if_pos (⟨by norm_num, hc⟩ : (302 : Nat) < 2303 ∧ count < 1000),
      dvg_end2, dvg_strip2, if_pos rfl, dvg_ns1]
    exact ih count acc hc

/-- C10: `chunk_text` does NOT terminate on every input with the default
parameters.  On `divergentText` (300 `b`s, `". "`, a newline, 2000 `c`s)
the loop reaches `start = 302` with one chunk emitted and then repeats that
state forever: the window `[302, 2302)` breaks at the newline at 302, the
window strips to nothing, and the overlap adjustment moves `start` from 303
back to 302.  Hence the fuel-indexed loop returns `none` for every fuel. -/
theorem c10_divergence : ∀ fuel,
    chunk_text fuel divergentText 2000 200 1000 = none := by
  intro fuel
  have hne : divergentText ≠ [] := by
    intro h
    have hl := congrArg List.length h
    rw [dvg_len] at hl
    simp at hl
  unfold chunk_text
  rw [if_neg hne]
  cases fuel with
  | zero => rfl
  | succ f =>
    rw [chunkLoop, dvg_len,
      if_pos (⟨by norm_num, by norm_num⟩ : (0 : Nat) < 2303 ∧ (0 : Nat) < 1000),
      dvg_end0, if_neg dvg_strip0,
      if_neg (by norm_num : ¬((1000 : Nat) ≤ 0 + 1)), dvg_ns0]
    cases f with
    | zero => rfl
    | succ g =>
      rw [chunkLoop, dvg_len,
        if_pos (⟨by norm_num, by norm_num⟩ : (301 : Nat) < 2303 ∧ 0 + 1 < 1000),
        dvg_end1, dvg_strip1, if_pos rfl, dvg_ns1]
      exact chunkLoop_stuck g (0 + 1) _ (by norm_num)

/-! ## C2: ordering and per-source maximality of get_context results -/

theorem addMatch_sources (docs : List Doc) (sims : List ℚ) (i : Nat)
    (st : GCState) :
    (addMatch docs sims i st).sources =
      st.sources ++ [mkEntry docs sims i] := rfl

theorem addMatch_seen (docs : List Doc) (sims : List ℚ) (i : Nat)
    (st : GCState) :
    (addMatch docs sims i st).seen = st.seen ++ [(docAt docs i).source] := rfl

theorem gcLoop1_appends (docs : List Doc) (sims : List ℚ) :
    ∀ l st, ∃ sub : List Nat, sub.Sublist l ∧
      (gcLoop1 docs sims l st).sources =
        st.sources ++ sub.map (mkEntry docs sims) ∧
      ∀ i ∈ sub, simThreshold < simAt sims i ∧
        metabMatch (docAt docs i).source = true ∧
        (docAt docs i).source ∉ st.seen := by
  intro l
  induction l with
  | nil => exact fun st => ⟨[], by simp, by simp [gcLoop1], by simp⟩
  | cons i t ih =>
    intro st
    rw [gcLoop1]
    by_cases hq : simThreshold < simAt sims i
    · rw [if_pos hq]
      by_cases hm : metabMatch (docAt docs i).source = true ∧
          (docAt docs i).source ∉ st.seen
      · rw [if_pos hm]
        obtain ⟨sub, hsub, heq, hprop⟩ := ih (addMatch docs sims i st)
        refine ⟨i :: sub, hsub.cons₂ i, ?_, ?_⟩
        · rw [heq, addMatch_sources, List.map_cons, List.append_assoc]
          rfl
        · intro j hj
          rcases List.mem_cons.mp hj with hji | hjs
          · subst hji
            exact ⟨hq, hm.1, hm.2⟩
          · have hp := hprop j hjs
            refine ⟨hp.1, hp.2.1, ?_⟩
            intro hmem
            exact hp.2.2 (by rw [addMatch_seen]; exact List.mem_append.mpr (Or.inl hmem))
      · rw [if_neg hm]
        obtain ⟨sub, hsub, heq, hprop⟩ := ih st
        exact ⟨sub, hsub.cons i, heq, hprop⟩
    · rw [if_neg hq]
      obtain ⟨sub, hsub, heq, hprop⟩ := ih st
      exact ⟨sub, hsub.cons i, heq, hprop⟩

theorem gcLoop1_seen_mono (docs : List Doc) (sims : List ℚ) :
    ∀ l st x, x ∈ st.seen → x ∈ (gcLoop1 docs sims l st).seen := by
  intro l
  induction l with
  | nil => exact fun st x h => h
  | cons i t ih =>
    intro st x hx
    rw [gcLoop1]
    by_cases hq : simThreshold < simAt sims i
    · rw [if_pos hq]
      by_cases hm : metabMatch (docAt docs i).source = true ∧
          (docAt docs i).source ∉ st.seen
      · rw [if_pos hm]
        exact ih _ x (by rw [addMatch_seen]; exact List.mem_append.mpr (Or.inl hx))
      · rw [if_neg hm]
        exact ih _ x hx
    · rw [if_neg hq]
      exact ih _ x hx

theorem gcLoop1_seen_complete (docs : List Doc) (sims : List ℚ) :
    ∀ l st i, i ∈ l → simThreshold < simAt sims i →
      metabMatch (docAt docs i).source = true →
      (docAt docs i).source ∈ (gcLoop1 docs sims l st).seen := by
  intro l
  induction l with
  | nil => intro st i hi; exact absurd hi (by simp)
  | cons j t ih =>
    intro st i hi hq hm
    rcases List.mem_cons.mp hi with hij | hit
    · subst hij
      rw [gcLoop1, if_pos hq]
      by_cases hm' : metabMatch (docAt docs i).source = true ∧
          (docAt docs i).source ∉ st.seen
      · rw [if_pos hm']
        apply gcLoop1_seen_mono
        rw [addMatch_seen]
        exact List.mem_append.mpr (Or.inr (by simp))
      · rw [if_neg hm']
        apply gcLoop1_seen_mono
        rcases not_and_or.mp hm' with h1 | h2
        · exact absurd hm h1
        · exact not_not.mp h2
    · rw [gcLoop1]
      by_cases hq' : simThreshold < simAt sims j
      · rw [if_pos hq']
        by_cases hm' : metabMatch (docAt docs j).source = true ∧
            (docAt docs j).source ∉ st.seen
        · rw [if_pos hm']
          exact ih _ i hit hq hm
        · rw [if_neg hm']
          exact ih _ i hit hq hm
      · rw [if_neg hq']
        exact ih _ i hit hq hm

theorem gcLoop2_appends (docs : List Doc) (sims : List ℚ) (n : Nat) :
    ∀ l st, ∃ sub : List Nat, sub.Sublist l ∧
      (gcLoop2 docs sims n l st).sources =
        st.sources ++ sub.map (mkEntry docs sims) ∧
      ∀ i ∈ sub, simThreshold < simAt sims i ∧
        (docAt docs i).source ∉ st.seen := by
  intro l
  induction l with
  | nil => exact fun st => ⟨[], by simp, by simp [gcLoop2], by simp⟩
  | cons i t ih =>
    intro st
    rw [gcLoop2]
    by_cases hq : simThreshold < simAt sims i
    · rw [if_pos hq]
      by_cases hm : (docAt docs i).source ∉ st.seen
      · rw [if_pos hm]
        by_cases hb : n ≤ (addMatch docs sims i st).sources.length
        · rw [if_pos hb]
          refine ⟨[i], (List.nil_sublist t).cons₂ i, addMatch_sources docs sims i st, ?_⟩
          intro j hj
          rw [List.mem_singleton] at hj
          subst hj
          exact ⟨hq, hm⟩
        · rw [if_neg hb]
          obtain ⟨sub, hsub, heq, hprop⟩ := ih (addMatch docs sims i st)
          refine ⟨i :: sub, hsub.cons₂ i, ?_, ?_⟩
          · rw [heq, addMatch_sources, List.map_cons, List.append_assoc]
            rfl
          · intro j hj
            rcases List.mem_cons.mp hj with hji | hjs
            · subst hji
              exact ⟨hq, hm⟩
            · have hp := hprop j hjs
              refine ⟨hp.1, ?_⟩
              intro hmem
              exact hp.2 (by rw [addMatch_seen]; exact List.mem_append.mpr (Or.inl hmem))
      · rw [if_neg hm]
        obtain ⟨sub, hsub, heq, hprop⟩ := ih st
        exact ⟨sub, hsub.cons i, heq, hprop⟩
    · rw [if_neg hq]
      obtain ⟨sub, hsub, heq, hprop⟩ := ih st
      exact ⟨sub, hsub.cons i, heq, hprop⟩

/-- C2, counterexample: with a non-"metabolism" source scoring 9/10 and a
"metabolism"-named source scoring 1/2, the returned sources list is
[metabolism.pdf (1/2), notes.pdf (9/10)] — the earlier entry has the
smaller similarity, so the list is not in descending score order. -/
theorem c2_not_globally_descending :
    (get_context
        [⟨"c1", "notes.pdf", "p", 0⟩, ⟨"c2", "metabolism.pdf", "p", 1⟩]
        [⟨9, 10, by norm_num, by norm_num⟩, ⟨1, 2, by norm_num, by norm_num⟩]
        5).sources.map SourceEntry.similarity =
      [⟨1, 2, by norm_num, by norm_num⟩, ⟨9, 10, by norm_num, by norm_num⟩] ∧
      ¬(((get_context
        [⟨"c1", "notes.pdf", "p", 0⟩, ⟨"c2", "metabolism.pdf", "p", 1⟩]
        [⟨9, 10, by norm_num, by norm_num⟩, ⟨1, 2, by norm_num, by norm_num⟩]
        5).sources.map SourceEntry.similarity).Pairwise
          (fun x y : ℚ => y ≤ x)) := by
  refine ⟨by decide, by decide⟩

theorem gcLoop1_max (docs : List Doc) (sims : List ℚ) :
    ∀ l st, l.Pairwise (fun i j => simAt sims j ≤ simAt sims i) →
      (∀ e ∈ st.sources, ∀ i ∈ l, simThreshold < simAt sims i →
        (docAt docs i).source = e.filename → simAt sims i ≤ e.similarity) →
      ∀ e ∈ (gcLoop1 docs sims l st).sources, ∀ i ∈ l,
        simThreshold < simAt sims i →
        metabMatch (docAt docs i).source = true →
        (docAt docs i).source = e.filename → simAt sims i ≤ e.similarity := by
  intro l
  induction l with
  | nil =>
    intro st _ hst e he i hi
    exact absurd hi (by simp)
  | cons j t ih =>
    intro st hp hst e he i hi hq hm hsrc
    have hpc := List.pairwise_cons.mp hp
    have hphead : ∀ i' ∈ t, simAt sims i' ≤ simAt sims j := hpc.1
    have hpt := hpc.2
    have hstt : ∀ e' ∈ st.sources, ∀ i' ∈ t, simThreshold < simAt sims i' →
        (docAt docs i').source = e'.filename → simAt sims i' ≤ e'.similarity :=
      fun e' he' i' hi' => hst e' he' i' (List.mem_cons_of_mem j hi')
    rw [gcLoop1] at he
    by_cases hq' : simThreshold < simAt sims j
    · rw [if_pos hq'] at he
      by_cases hm' : metabMatch (docAt docs j).source = true ∧
          (docAt docs j).source ∉ st.seen
      · rw [if_pos hm'] at he
        have hst' : ∀ e' ∈ (addMatch docs sims j st).sources, ∀ i' ∈ t,
            simThreshold < simAt sims i' →
            (docAt docs i').source = e'.filename →
            simAt sims i' ≤ e'.similarity := by
          intro e' he' i' hi' hq'' hsrc'
          rw [addMatch_sources] at he'
          rcases List.mem_append.mp he' with hold | hnew
          · exact hstt e' hold i' hi' hq'' hsrc'
          · rw [List.mem_singleton] at hnew
            subst hnew
            exact hphead i' hi'
        rcases List.mem_cons.mp hi with hij | hit
        · subst hij
          obtain ⟨sub, _, heq, hprop⟩ :=
            gcLoop1_appends docs sims t (addMatch docs sims i st)
          rw [heq] at he
          rcases List.mem_append.mp he with h1 | h2
          · rw [addMatch_sources] at h1
            rcases List.mem_append.mp h1 with h1a | h1b
            · exact hst e h1a i (by simp) hq hsrc
            · rw [List.mem_singleton] at h1b
              subst h1b
              exact le_refl _
          · rw [List.mem_map] at h2
            obtain ⟨i2, hi2, hei⟩ := h2
            exfalso
            apply (hprop i2 hi2).2.2
            rw [addMatch_seen]
            refine List.mem_append.mpr (Or.inr ?_)
            have hf2 : (docAt docs i2).source = e.filename := by
              rw [← hei]
              rfl
            rw [hf2, ← hsrc]
            simp
        · exact ih (addMatch docs sims j st) hpt hst' e he i hit hq hm hsrc
      · rw [if_neg hm'] at he
        rcases List.mem_cons.mp hi with hij | hit
        · subst hij
          have hseen : (docAt docs i).source ∈ st.seen := by
            rcases not_and_or.mp hm' with h1 | h2
            · exact absurd hm h1
            · exact not_not.mp h2
          obtain ⟨sub, _, heq, hprop⟩ := gcLoop1_appends docs sims t st
          rw [heq] at he
          rcases List.mem_append.mp he with h1 | h2
          · exact hst e h1 i (by simp) hq hsrc
          · rw [List.mem_map] at h2
            obtain ⟨i2, hi2, hei⟩ := h2
            exfalso
            apply (hprop i2 hi2).2.2
            have hf2 : (docAt docs i2).source = e.filename := by
              rw [← hei]
              rfl
            rw [hf2, ← hsrc]
            exact hseen
        · exact ih st hpt hstt e he i hit hq hm hsrc
    · rw [if_neg hq'] at he
      rcases List.mem_cons.mp hi with hij | hit
      · subst hij
        exact absurd hq hq'
      · exact ih st hpt hstt e he i hit hq hm hsrc

theorem gcLoop2_max (docs : List Doc) (sims : List ℚ) (n : Nat) :
    ∀ l st, l.Pairwise (fun i j => simAt sims j ≤ simAt sims i) →
      (∀ e ∈ st.sources, ∀ i ∈ l, simThreshold < simAt sims i →
        (docAt docs i).source = e.filename → simAt sims i ≤ e.similarity) →
      ∀ e ∈ (gcLoop2 docs sims n l st).sources, ∀ i ∈ l,
        simThreshold < simAt sims i →
        (docAt docs i).source = e.filename → simAt sims i ≤ e.similarity := by
  intro l
  induction l with
  | nil =>
    intro st _ hst e he i hi
    exact absurd hi (by simp)
  | cons j t ih =>
    intro st hp hst e he i hi hq hsrc
    have hpc := List.pairwise_cons.mp hp
    have hphead : ∀ i' ∈ t, simAt sims i' ≤ simAt sims j := hpc.1
    have hpt := hpc.2
    have hstt : ∀ e' ∈ st.sources, ∀ i' ∈ t, simThreshold < simAt sims i' →
        (docAt docs i').source = e'.filename → simAt sims i' ≤ e'.similarity :=
      fun e' he' i' hi' => hst e' he' i' (List.mem_cons_of_mem j hi')
    rw [gcLoop2] at he
    by_cases hq' : simThreshold < simAt sims j
    · rw [if_pos hq'] at he
      by_cases hm : (docAt docs j).source ∉ st.seen
      · rw [if_pos hm] at he
        have hst' : ∀ e' ∈ (addMatch docs sims j st).sources, ∀ i' ∈ t,
            simThreshold < simAt sims i' →
            (docAt docs i').source = e'.filename →
            simAt sims i' ≤ e'.similarity := by
          intro e' he' i' hi' hq'' hsrc'
          rw [addMatch_sources] at he'
          rcases List.mem_append.mp he' with hold | hnew
          · exact hstt e' hold i' hi' hq'' hsrc'
          · rw [List.mem_singleton] at hnew
            subst hnew
            exact hphead i' hi'
        by_cases hb : n ≤ (addMatch docs sims j st).sources.length
        · rw [if_pos hb] at he
          rw [addMatch_sources] at he
          rcases List.mem_append.mp he with hold | hnew
          · exact hst e hold i hi hq hsrc
          · rw [List.mem_singleton] at hnew
            subst hnew
            rcases List.mem_cons.mp hi with hij | hit
            · subst hij
              exact le_refl _
            · exact hphead i hit
        · rw [if_neg hb] at he
          rcases List.mem_cons.mp hi with hij | hit
          · subst hij
            obtain ⟨sub, _, heq, hprop⟩ :=
              gcLoop2_appends docs sims n t (addMatch docs sims i st)
            rw [heq] at he
            rcases List.mem_append.mp he with h1 | h2
            · rw [addMatch_sources] at h1
              rcases List.mem_append.mp h1 with h1a | h1b
              · exact hst e h1a i (by simp) hq hsrc
              · rw [List.mem_singleton] at h1b
                subst h1b
                exact le_refl _
            · rw [List.mem_map] at h2
              obtain ⟨i2, hi2, hei⟩ := h2
              exfalso
              apply (hprop i2 hi2).2
              rw [addMatch_seen]
              refine List.mem_append.mpr (Or.inr ?_)
              have hf2 : (docAt docs i2).source = e.filename := by
                rw [← hei]
                rfl
              rw [hf2, ← hsrc]
              simp
          · exact ih (addMatch docs sims j st) hpt hst' e he i hit hq hsrc
      · rw [if_neg hm] at he
        rcases List.mem_cons.mp hi with hij | hit
        · subst hij
          have hseen : (docAt docs i).source ∈ st.seen := not_not.mp hm
          obtain ⟨sub, _, heq, hprop⟩ := gcLoop2_appends docs sims n t st
          rw [heq] at he
          rcases List.mem_append.mp he with h1 | h2
          · exact hst e h1 i (by simp) hq hsrc
          · rw [List.mem_map] at h2
            obtain ⟨i2, hi2, hei⟩ := h2
            exfalso
            apply (hprop i2 hi2).2
            have hf2 : (docAt docs i2).source = e.filename := by
              rw [← hei]
              rfl
            rw [hf2, ← hsrc]
            exact hseen
        · exact ih st hpt hstt e he i hit hq hsrc
    · rw [if_neg hq'] at he
      rcases List.mem_cons.mp hi with hij | hit
      · subst hij
        exact absurd hq hq'
      · exact ih st hpt hstt e he i hit hq hsrc

theorem topIndices_pairwise (sims : List ℚ) (n : Nat) :
    (topIndices sims n).Pairwise (fun i j => simAt sims j ≤ simAt sims i) := by
  unfold topIndices
  rw [List.pairwise_reverse]
  have hsorted : (argsortAsc sims).Pairwise
      (fun i j => simAt sims i ≤ simAt sims j) := by
    unfold argsortAsc
    haveI : IsTotal Nat (fun i j => simAt sims i ≤ simAt sims j) :=
      ⟨fun a b => le_total _ _⟩
    haveI : IsTrans Nat (fun i j => simAt sims i ≤ simAt sims j) :=
      ⟨fun a b c hab hbc => le_trans hab hbc⟩
    exact List.sorted_insertionSort _ _
  unfold lastSlice
  by_cases hk : n * 2 = 0
  · rw [if_pos hk]
    exact hsorted
  · rw [if_neg hk]
    exact hsorted.sublist (List.drop_sublist _ _)

/-- C2, amended: the sources list is a metabolism-prioritized prefix
followed by the remaining sources; similarities are descending within each
of the two segments (not globally), and for every retained entry its
similarity is at least that of every above-threshold candidate chunk of the
same source — i.e. per source only the highest-scoring chunk is kept. -/
theorem c2_two_phase_order (docs : List Doc) (sims : List ℚ) (n : Nat) :
    ∃ A B, (get_context docs sims n).sources = A ++ B ∧
      (∀ e ∈ A, metabMatch e.filename = true) ∧
      (∀ e ∈ B, metabMatch e.filename = false) ∧
      (A.map SourceEntry.similarity).Pairwise (fun x y => y ≤ x) ∧
      (B.map SourceEntry.similarity).Pairwise (fun x y => y ≤ x) ∧
      ∀ e ∈ (get_context docs sims n).sources, ∀ i ∈ topIndices sims n,
        simThreshold < simAt sims i → (docAt docs i).source = e.filename →
        simAt sims i ≤ e.similarity := by
  by_cases hd : docs.isEmpty
  · refine ⟨[], [], ?_, by simp, by simp, by simp, by simp, ?_⟩
    · unfold get_context
      rw [if_pos hd]
      rfl
    · intro e he
      unfold get_context at he
      rw [if_pos hd] at he
      exact absurd he (by simp)
  · have hpair := topIndices_pairwise sims n
    have hst0 : ∀ e ∈ (⟨"", [], []⟩ : GCState).sources, ∀ i ∈ topIndices sims n,
        simThreshold < simAt sims i → (docAt docs i).source = e.filename →
        simAt sims i ≤ e.similarity := by
      intro e he
      exact absurd he (by simp)
    obtain ⟨sub1, hsub1, heq1, hprop1⟩ :=
      gcLoop1_appends docs sims (topIndices sims n) ⟨"", [], []⟩
    have hmax1 := gcLoop1_max docs sims (topIndices sims n) ⟨"", [], []⟩
      hpair hst0
    have hmetab1 : ∀ e ∈ (gcLoop1 docs sims (topIndices sims n)
        ⟨"", [], []⟩).sources, metabMatch e.filename = true := by
      intro e he
      rw [heq1] at he
      rcases List.mem_append.mp he with h1 | h2
      · exact absurd h1 (by simp)
      · rw [List.mem_map] at h2
        obtain ⟨i2, hi2, hei⟩ := h2
        rw [← hei]
        exact (hprop1 i2 hi2).2.1
    have hst1max : ∀ e ∈ (gcLoop1 docs sims (topIndices sims n)
        ⟨"", [], []⟩).sources, ∀ i ∈ topIndices sims n,
        simThreshold < simAt sims i → (docAt docs i).source = e.filename →
        simAt sims i ≤ e.similarity := by
      intro e he i hi hq hsrc
      refine hmax1 e he i hi hq ?_ hsrc
      rw [hsrc]
      exact hmetab1 e he
    have hgc : (get_context docs sims n).sources =
        (if (gcLoop1 docs sims (topIndices sims n) ⟨"", [], []⟩).sources.length < n
         then gcLoop2 docs sims n (topIndices sims n)
           (gcLoop1 docs sims (topIndices sims n) ⟨"", [], []⟩)
         else gcLoop1 docs sims (topIndices sims n) ⟨"", [], []⟩).sources := by
      unfold get_context
      rw [if_neg hd]
    by_cases hn : (gcLoop1 docs sims (topIndices sims n)
        ⟨"", [], []⟩).sources.length < n
    · rw [if_pos hn] at hgc
      obtain ⟨sub2, hsub2, heq2, hprop2⟩ :=
        gcLoop2_appends docs sims n (topIndices sims n)
          (gcLoop1 docs sims (topIndices sims n) ⟨"", [], []⟩)
      refine ⟨sub1.map (mkEntry docs sims), sub2.map (mkEntry docs sims),
        ?_, ?_, ?_, ?_, ?_, ?_⟩
      · rw [hgc, heq2, heq1]
        simp
      · intro e he
        rw [List.mem_map] at he
        obtain ⟨i2, hi2, hei⟩ := he
        rw [← hei]
        exact (hprop1 i2 hi2).2.1
      · intro e he
        rw [List.mem_map] at he
        obtain ⟨i2, hi2, hei⟩ := he
        cases hmb : metabMatch (docAt docs i2).source with
        | false =>
          rw [← hei]
          exact hmb
        | true =>
          exfalso
          apply (hprop2 i2 hi2).2
          exact gcLoop1_seen_complete docs sims (topIndices sims n)
            ⟨"", [], []⟩ i2 (hsub2.subset hi2) (hprop2 i2 hi2).1 hmb
      · rw [List.map_map]
        exact List.pairwise_map.mpr (hpair.sublist hsub1)
      · rw [List.map_map]
        exact List.pairwise_map.mpr (hpair.sublist hsub2)
      · intro e he i hi hq hsrc
        rw [hgc] at he
        exact gcLoop2_max docs sims n (topIndices sims n)
          (gcLoop1 docs sims (topIndices sims n) ⟨"", [], []⟩)
          hpair hst1max e he i hi hq hsrc
    · rw [if_neg hn] at hgc
      refine ⟨sub1.map (mkEntry docs sims), [], ?_, ?_, by simp, ?_, by simp, ?_⟩
      · rw [hgc, heq1]
        simp
      · intro e he
        rw [List.mem_map] at he
        obtain ⟨i2, hi2, hei⟩ := he
        rw [← hei]
        exact (hprop1 i2 hi2).2.1
      · rw [List.map_map]
        exact List.pairwise_map.mpr (hpair.sublist hsub1)
      · intro e he i hi hq hsrc
        rw [hgc] at he
        exact hst1max e he i hi hq hsrc

end ChatbotGait
